import Mathlib

/-!
Verification of the slide-annotation tool (`extractor.cpp`): a shallow
embedding of its crop exporter (`save_crops`), its simulated OCR worker
(`ocr_worker` with `next_latex_snippet`), its annotation session
(`BoxDrawer`) and its page orchestrator (`annotate_pdf`), together with
theorems settling the specified properties.

Modelling conventions: `cv::Point` coordinates are `Int`; the image is
given by its dimensions `w = img.cols`, `h = img.rows`; a written crop
file is the pair of its name and the extracted rectangle; directory
entries are (stem, extension) pairs; the worker's `stop_flag` is a
function from an abstract clock to `Bool`, the clock ticking at each
`load()`; file writes are lists of (path, content) pairs.
-/

namespace Extractor

/-- cv::Point: integer pixel coordinates. -/
structure CvPoint where
  x : Int
  y : Int
deriving DecidableEq, Repr

/-- One drawn box: the two corner points, in the order they were recorded
(anchor first, release second), as in `std::pair<cv::Point, cv::Point>`. -/
abbrev Box := CvPoint × CvPoint

/-- std::clamp(v, lo, hi): `v < lo ? lo : (hi < v ? hi : v)`. -/
def stdClamp (v lo hi : Int) : Int :=
  if v < lo then lo else if hi < v then hi else v

/-- The rectangle `cv::Rect(x1, y1, x2 - x1, y2 - y1)` that `save_crops`
extracts, recorded by its clamped corner coordinates. -/
structure CropRect where
  x1 : Int
  x2 : Int
  y1 : Int
  y2 : Int
deriving DecidableEq, Repr

/-- Lines 192-195 of extractor.cpp: per-axis min/max of the two corners,
each clamped to `[0, w]` resp. `[0, h]`. -/
def cropRect (w h : Int) (b : Box) : CropRect :=
  { x1 := stdClamp (min b.1.x b.2.x) 0 w
    x2 := stdClamp (max b.1.x b.2.x) 0 w
    y1 := stdClamp (min b.1.y b.2.y) 0 h
    y2 := stdClamp (max b.1.y b.2.y) 0 h }

/-- Whether a box survives the `x2 - x1 == 0 || y2 - y1 == 0` skip test. -/
def acceptBox (w h : Int) (b : Box) : Bool :=
  decide (¬ ((cropRect w h b).x2 - (cropRect w h b).x1 = 0 ∨
             (cropRect w h b).y2 - (cropRect w h b).y1 = 0))

/-- snprintf %03d: decimal digits, left-padded with zeros to width 3. -/
def pad3 (n : Nat) : String :=
  let s := toString n
  String.mk (List.replicate (3 - s.length) '0') ++ s

/-- The crop file name `slide_%03d_crop_%d.png` of line 200. -/
def cropName (slide_idx : Nat) (crop_idx : Nat) : String :=
  "slide_" ++ pad3 (slide_idx + 1) ++ "_crop_" ++ toString crop_idx ++ ".png"

/-- The loop of `save_crops` (lines 190-204), with the running `crop_idx`
explicit; returns the (file name, extracted rectangle) pairs written. -/
def saveCropsAux (w h : Int) (slide_idx : Nat) : Nat → List Box → List (String × CropRect)
  | _, [] => []
  | crop_idx, b :: bs =>
    let r := cropRect w h b
    if r.x2 - r.x1 = 0 ∨ r.y2 - r.y1 = 0 then
      saveCropsAux w h slide_idx crop_idx bs
    else
      (cropName slide_idx crop_idx, r) :: saveCropsAux w h slide_idx (crop_idx + 1) bs

/-- save_crops (lines 183-205): `crop_idx` starts at 1. -/
def save_crops (w h : Int) (slide_idx : Nat) (boxes : List Box) : List (String × CropRect) :=
  saveCropsAux w h slide_idx 1 boxes

/-- A directory entry, as its stem and its extension (with the dot), the
two pieces the worker looks at. -/
structure DirEntry where
  stem : String
  ext : String
deriving DecidableEq, Repr

/-- entry.path().replace_extension(".tex") of line 96. -/
def texOf (e : DirEntry) : DirEntry :=
  { stem := e.stem, ext := ".tex" }

/-- path.filename().string(): stem plus extension. -/
def fname (e : DirEntry) : String :=
  e.stem ++ e.ext

/-- The cyclic catalog LATEX_SNIPPETS (lines 65-75). -/
def LATEX_SNIPPETS : List String :=
  ["\\hat\x7by\x7d=\\sigma(Wx+b)",
   "L=\\frac\x7b1\x7d\x7bN\x7d\\sum_\x7bi=1\x7d^\x7bN\x7d(y_i-\\hat\x7by\x7d_i)^2",
   "p(z\\mid x)=\\frac\x7bp(x\\mid z)p(z)\x7d\x7bp(x)\x7d",
   "\\theta \\leftarrow \\theta-\\eta\\nabla_\\theta L",
   "q(z) \\approx p(z \\mid x)",
   "\\mathrm\x7bELBO\x7d=\\mathbb\x7bE\x7d_\x7bq\x7d[\\log p(x,z)]-\\mathbb\x7bE\x7d_\x7bq\x7d[\\log q(z)]",
   "K(x_i,x_j)=\\exp\\left(-\\frac\x7b\\|x_i-x_j\\|^2\x7d\x7b2\\sigma^2\x7d\\right)",
   "a^\x7b(l)\x7d=\\mathrm\x7bReLU\x7d(W^\x7b(l)\x7da^\x7b(l-1)\x7d+b^\x7b(l)\x7d)",
   "\\text\x7bsoftmax\x7d(z)_k = \\frac\x7be^\x7bz_k\x7d\x7d\x7b\\sum_j e^\x7bz_j\x7d\x7d",
   "f(x)=\\mathrm\x7bsign\x7d(w^Tx+b)"]

/-- next_latex_snippet (lines 77-82): the snippet at the current value of
the static counter, modulo the catalog size; the caller threads the
counter. -/
def next_latex_snippet (index : Nat) : String :=
  LATEX_SNIPPETS.getD (index % LATEX_SNIPPETS.length) ""

/-- The simulated-processing wait, lines 105-107: up to `n` iterations,
each loading `stop_flag` (one clock tick) and stopping early when the
load observes `true`. Returns the clock after the loop. -/
def simWait (stop : Nat → Bool) : Nat → Nat → Nat
  | 0, t => t
  | n + 1, t => if stop t then t + 1 else simWait stop n (t + 1)

/-- Lines 104-111: the wait, the post-wait `stop_flag.load()` (one tick),
and on non-abort the attempted Result File write (the file materialises
only when `writeOk` holds for the entry; the code never checks).
Returns (written file, clock, aborted). -/
def itemStep (stop : Nat → Bool) (writeOk : DirEntry → Bool) (e : DirEntry) (c t : Nat) :
    Option (DirEntry × String) × Nat × Bool :=
  let t1 := simWait stop 30 t
  if stop t1 then (none, t1 + 1, true)
  else (if writeOk e then some (texOf e, next_latex_snippet c ++ "\n") else none, t1 + 1, false)

/-- What one directory pass of `ocr_worker` produced. -/
structure PassOut where
  writes : List (DirEntry × String)
  logs : List String
  existing : List DirEntry
  counter : Nat
  time : Nat
  work_found : Bool
  aborted : Bool
deriving DecidableEq, Repr

/-- The `for (entry : directory_iterator)` body, lines 93-112: per entry a
`stop_flag.load()` (abort the pass when true), the `.png` extension
filter, the `fs::exists(tex_path)` skip, then the item processing of
`itemStep`; `existing` is the set of files present, extended by each
successful write; `c` is the snippet counter, `t` the clock, `wf` the
running `work_found` flag. -/
def ocrPassAux (stop : Nat → Bool) (writeOk : DirEntry → Bool) :
    List DirEntry → List DirEntry → Nat → Nat → Bool → PassOut
  | [], ex, c, t, wf => ⟨[], [], ex, c, t, wf, false⟩
  | e :: es, ex, c, t, wf =>
    if stop t then ⟨[], [], ex, c, t + 1, wf, true⟩
    else if e.ext ≠ ".png" then ocrPassAux stop writeOk es ex c (t + 1) wf
    else if texOf e ∈ ex then ocrPassAux stop writeOk es ex c (t + 1) wf
    else
      let latex := next_latex_snippet c
      let log1 := "[OCR] Processing " ++ fname e ++ " -> '" ++ latex ++ "'"
      match itemStep stop writeOk e c (t + 1) with
      | (w, t2, ab) =>
        if ab then ⟨[], [log1], ex, c + 1, t2, true, true⟩
        else
          let log2 := "[OCR]   -> wrote " ++ fname (texOf e)
          let ex2 := match w with
            | some p => p.1 :: ex
            | none => ex
          let r := ocrPassAux stop writeOk es ex2 (c + 1) t2 true
          ⟨w.toList ++ r.writes, log1 :: log2 :: r.logs, r.existing, r.counter, r.time,
            r.work_found, r.aborted⟩

/-- One full directory pass, `work_found` starting false (line 92). -/
def ocrPass (stop : Nat → Bool) (writeOk : DirEntry → Bool)
    (entries ex : List DirEntry) (c t : Nat) : PassOut :=
  ocrPassAux stop writeOk entries ex c t false

/-- The outer `while (!stop_flag.load())` loop of `ocr_worker`
(lines 87-116), fuel-bounded: per iteration one load (tick), the
directory-existence test (entry lists and existence supplied per pass by
the environment), then a pass. Returns (all writes, whether the loop
observed the Stop Signal and exited). -/
def workerRun (stop : Nat → Bool) (writeOk : DirEntry → Bool)
    (entriesF : Nat → List DirEntry) (folderExists : Nat → Bool) :
    Nat → Nat → List DirEntry → Nat → Nat → List (DirEntry × String) × Bool
  | 0, _, _, _, _ => ([], false)
  | fuel + 1, pn, ex, c, t =>
    if stop t then ([], true)
    else if ¬ folderExists pn then
      workerRun stop writeOk entriesF folderExists fuel (pn + 1) ex c (t + 1)
    else
      let r := ocrPass stop writeOk (entriesF pn) ex c (t + 1)
      let rest := workerRun stop writeOk entriesF folderExists fuel (pn + 1) r.existing r.counter r.time
      (r.writes ++ rest.1, rest.2)

/-- The Stop Signal is set at most once: once observed true it stays true
(std::atomic_bool written only by `stop_flag.store(true)` at shutdown). -/
def StopMono (stop : Nat → Bool) : Prop :=
  ∀ i j, i ≤ j → stop i = true → stop j = true

/-- The stems of the `.png` entries of a directory listing. -/
def pngStems (entries : List DirEntry) : List String :=
  (entries.filter (fun e => e.ext == ".png")).map DirEntry.stem

/-- The per-session interaction state of BoxDrawer: the drawn boxes and
the pending drag anchor `start_`. -/
structure DrawerState where
  boxes : List Box
  start : Option CvPoint
deriving DecidableEq, Repr

/-- One input event: a mouse press, a mouse release, or the key returned
by `cv::waitKey` (-1 when none). -/
inductive Ev where
  | down : Int → Int → Ev
  | up : Int → Int → Ev
  | key : Int → Ev
deriving DecidableEq, Repr

/-- BoxDrawer::mouseCallback (lines 165-173): press records the anchor;
release with a pending anchor appends the raw (anchor, release) pair and
clears the anchor; anything else is ignored. -/
def mouseCallback (st : DrawerState) (e : Ev) : DrawerState :=
  match e with
  | Ev.down x y => { st with start := some ⟨x, y⟩ }
  | Ev.up x y =>
    match st.start with
    | some s => { boxes := st.boxes ++ [(s, ⟨x, y⟩)], start := none }
    | none => st
  | Ev.key _ => st

/-- The key handling of BoxDrawer::run (lines 142-160) for one polled key:
q (113) and b (98) return the boxes with "next"/"back", Esc (27) clears
the out-parameter and returns "quit", u (117) pops the last box if any,
c (99) clears all boxes. -/
def keyStep (st : DrawerState) (key : Int) : DrawerState ⊕ (String × List Box) :=
  if key = 113 then Sum.inr ("next", st.boxes)
  else if key = 98 then Sum.inr ("back", st.boxes)
  else if key = 27 then Sum.inr ("quit", [])
  else
    let b1 := if key = 117 ∧ st.boxes ≠ [] then st.boxes.dropLast else st.boxes
    let b2 := if key = 99 then [] else b1
    Sum.inl { st with boxes := b2 }

/-- BoxDrawer::run over a finite event schedule: mouse events go through
the callback, key events through `keyStep`; `none` when the schedule ends
with the loop still running. -/
def runSession : DrawerState → List Ev → Option (String × List Box)
  | _, [] => none
  | st, e :: es =>
    match e with
    | Ev.key k =>
      match keyStep st k with
      | Sum.inl st2 => runSession st2 es
      | Sum.inr out => some out
    | _ => runSession (mouseCallback st e) es

/-- Box Store append: `boxes_.emplace_back` (line 170). -/
def appendBox (l : List Box) (b : Box) : List Box :=
  l ++ [b]

/-- Box Store undoLast: `if (!boxes_.empty()) boxes_.pop_back()`
(lines 155-157). -/
def undoLast (l : List Box) : List Box :=
  if l.isEmpty then l else l.dropLast

/-- Box Store clear: `boxes_.clear()` (line 159). -/
def clearBoxes (_l : List Box) : List Box :=
  []

/-- The `while (slide_idx >= 0 && slide_idx < page_count)` loop of
annotate_pdf (lines 229-271), driven by a script of session outcomes
(action, boxes) in visit order. Returns (the `save_crops` invocations as
(slide_idx, boxes) pairs, the page indices rendered). An exhausted
script ends the run after the render of the current page. -/
def annotateRun (page_count : Int) : Int → List (String × List Box) → List (Int × List Box) × List Int
  | idx, [] => if 0 ≤ idx ∧ idx < page_count then ([], [idx]) else ([], [])
  | idx, (a, bs) :: rest =>
    if 0 ≤ idx ∧ idx < page_count then
      if a = "quit" then ([], [idx])
      else
        let ex := if bs ≠ [] then [(idx, bs)] else []
        let idx2 := if a = "back" ∧ 0 < idx then idx - 1 else if a = "next" then idx + 1 else idx
        let r := annotateRun page_count idx2 rest
        (ex ++ r.1, idx :: r.2)
    else ([], [])

theorem saveCropsAux_eq (w h : Int) (si : Nat) (boxes : List Box) :
    ∀ n : Nat,
      saveCropsAux w h si n boxes =
        List.zipWith (fun i b => (cropName si i, cropRect w h b))
          (List.range' n (boxes.filter (acceptBox w h)).length)
          (boxes.filter (acceptBox w h)) := by
  induction boxes with
  | nil => intro n; simp [saveCropsAux]
  | cons b bs ih =>
    intro n
    by_cases hc : (cropRect w h b).x2 - (cropRect w h b).x1 = 0 ∨
        (cropRect w h b).y2 - (cropRect w h b).y1 = 0
    · have ha : acceptBox w h b = false := by simp [acceptBox, hc]
      simp [saveCropsAux, hc, List.filter_cons, ha, ih n]
    · have ha : acceptBox w h b = true := by simp [acceptBox, hc]
      simp [saveCropsAux, hc, List.filter_cons, ha, List.range'_succ, ih (n + 1)]

/-- C1: for every page image and box sequence, a box whose clamped extent
is zero in either axis produces no file and does not advance the crop
ordinal, every box with positive clamped extents produces exactly one
file, and the files are named `slide_<pageIndex+1, zero-padded to 3
digits>_crop_<ordinal>.png` with ordinals exactly 1, 2, 3, ... in the
order the accepted boxes appear: the output is precisely the accepted
boxes zipped with the ordinals counted from 1. -/
theorem C1_crop_files_exact (w h : Int) (si : Nat) (boxes : List Box) :
    save_crops w h si boxes =
      List.zipWith (fun i b => (cropName si i, cropRect w h b))
        (List.range' 1 (boxes.filter (acceptBox w h)).length)
        (boxes.filter (acceptBox w h)) :=
  saveCropsAux_eq w h si boxes 1

theorem stdClamp_nonneg (v m : Int) (hm : 0 ≤ m) : 0 ≤ stdClamp v 0 m := by
  unfold stdClamp; split_ifs <;> omega

theorem stdClamp_le_hi (v m : Int) (hm : 0 ≤ m) : stdClamp v 0 m ≤ m := by
  unfold stdClamp; split_ifs <;> omega

theorem stdClamp_mono (a b lo hi : Int) (hlh : lo ≤ hi) (hab : a ≤ b) :
    stdClamp a lo hi ≤ stdClamp b lo hi := by
  unfold stdClamp; split_ifs <;> omega

theorem saveCropsAux_mem_bounds (w h : Int) (si : Nat) (hw : 0 ≤ w) (hh : 0 ≤ h)
    (boxes : List Box) :
    ∀ (n : Nat) (p : String × CropRect), p ∈ saveCropsAux w h si n boxes →
      0 ≤ p.2.x1 ∧ p.2.x1 < p.2.x2 ∧ p.2.x2 ≤ w ∧
      0 ≤ p.2.y1 ∧ p.2.y1 < p.2.y2 ∧ p.2.y2 ≤ h := by
  induction boxes with
  | nil => intro n p hp; simp [saveCropsAux] at hp
  | cons b bs ih =>
    intro n p hp
    by_cases hc : (cropRect w h b).x2 - (cropRect w h b).x1 = 0 ∨
        (cropRect w h b).y2 - (cropRect w h b).y1 = 0
    · rw [saveCropsAux, if_pos hc] at hp
      exact ih n p hp
    · rw [saveCropsAux, if_neg hc] at hp
      rcases List.mem_cons.mp hp with hhd | htl
      · subst hhd
        push_neg at hc
        have hx1 : 0 ≤ (cropRect w h b).x1 := stdClamp_nonneg _ _ hw
        have hx2 : (cropRect w h b).x2 ≤ w := stdClamp_le_hi _ _ hw
        have hy1 : 0 ≤ (cropRect w h b).y1 := stdClamp_nonneg _ _ hh
        have hy2 : (cropRect w h b).y2 ≤ h := stdClamp_le_hi _ _ hh
        have hxm : (cropRect w h b).x1 ≤ (cropRect w h b).x2 :=
          stdClamp_mono _ _ _ _ hw (min_le_max)
        have hym : (cropRect w h b).y1 ≤ (cropRect w h b).y2 :=
          stdClamp_mono _ _ _ _ hh (min_le_max)
        dsimp only
        refine ⟨hx1, by omega, hx2, hy1, by omega, hy2⟩
      · exact ih (n + 1) p htl

/-- C9: for every input box with arbitrary corner coordinates, whenever
the Crop Exporter writes a file the extracted rectangle satisfies
`0 ≤ x1 < x2 ≤ w` and `0 ≤ y1 < y2 ≤ h`, so the sub-image extraction
stays inside the image. -/
theorem C9_crops_in_bounds (w h : Int) (si : Nat) (boxes : List Box)
    (p : String × CropRect) (hw : 0 ≤ w) (hh : 0 ≤ h)
    (hp : p ∈ save_crops w h si boxes) :
    0 ≤ p.2.x1 ∧ p.2.x1 < p.2.x2 ∧ p.2.x2 ≤ w ∧
    0 ≤ p.2.y1 ∧ p.2.y1 < p.2.y2 ∧ p.2.y2 ≤ h :=
  saveCropsAux_mem_bounds w h si hw hh boxes 1 p hp

/-- Witness for C9 at a concrete out-of-range box on a 100 by 50 image. -/
theorem C9_crops_in_bounds_witness :
    (cropName 0 1, CropRect.mk 0 7 0 8) ∈ save_crops 100 50 0 [(⟨-3, -4⟩, ⟨7, 8⟩)] ∧
    (0 ≤ (CropRect.mk 0 7 0 8).x1 ∧ (CropRect.mk 0 7 0 8).x1 < (CropRect.mk 0 7 0 8).x2 ∧
     (CropRect.mk 0 7 0 8).x2 ≤ 100 ∧ 0 ≤ (CropRect.mk 0 7 0 8).y1 ∧
     (CropRect.mk 0 7 0 8).y1 < (CropRect.mk 0 7 0 8).y2 ∧ (CropRect.mk 0 7 0 8).y2 ≤ 50) :=
  ⟨by decide, C9_crops_in_bounds 100 50 0 [(⟨-3, -4⟩, ⟨7, 8⟩)] (cropName 0 1, CropRect.mk 0 7 0 8)
    (by decide) (by decide) (by decide)⟩

/-- C5: the crop region is invariant under swapping the box's two corner
points (min/max per axis, clamped at export time), and the session stores
the raw (anchor, release) pair without any normalization: the release
branch of the mouse callback appends exactly that pair. -/
theorem C5_draw_direction_independent :
    (∀ (w h : Int) (p1 p2 : CvPoint), cropRect w h (p1, p2) = cropRect w h (p2, p1)) ∧
    (∀ (st : DrawerState) (s : CvPoint) (x y : Int), st.start = some s →
        mouseCallback st (Ev.up x y) =
          { boxes := st.boxes ++ [(s, ⟨x, y⟩)], start := none }) := by
  constructor
  · intro w h p1 p2
    simp only [cropRect, min_comm, max_comm]
  · intro st s x y hs
    simp [mouseCallback, hs]

/-- Witness for C5 at a concrete state and box. -/
theorem C5_draw_direction_independent_witness :
    mouseCallback ⟨[], some ⟨1, 2⟩⟩ (Ev.up 3 4) = ⟨[(⟨1, 2⟩, ⟨3, 4⟩)], none⟩ ∧
    cropRect 10 10 (⟨1, 2⟩, ⟨3, 4⟩) = cropRect 10 10 (⟨3, 4⟩, ⟨1, 2⟩) :=
  ⟨C5_draw_direction_independent.2 ⟨[], some ⟨1, 2⟩⟩ ⟨1, 2⟩ 3 4 rfl,
   C5_draw_direction_independent.1 10 10 ⟨1, 2⟩ ⟨3, 4⟩⟩

/-- C6: undoLast immediately after append restores the exact prior
snapshot, undoLast on an empty store is a no-op, and clear always yields
an empty snapshot regardless of history; the undo and clear keys of the
session realize exactly these store operations. -/
theorem C6_box_store_ops :
    (∀ (l : List Box) (b : Box), undoLast (appendBox l b) = l) ∧
    undoLast ([] : List Box) = [] ∧
    (∀ l : List Box, clearBoxes l = []) ∧
    (∀ st : DrawerState, keyStep st 117 = Sum.inl { st with boxes := undoLast st.boxes }) ∧
    (∀ st : DrawerState, keyStep st 99 = Sum.inl { st with boxes := clearBoxes st.boxes }) := by
  refine ⟨?_, ?_, ?_, ?_, ?_⟩
  · intro l b
    simp [undoLast, appendBox]
  · simp [undoLast]
  · intro l; rfl
  · intro st
    by_cases hb : st.boxes = [] <;> simp [keyStep, undoLast, hb]
  · intro st
    simp [keyStep, clearBoxes]

theorem keyStep_inr_quit (st : DrawerState) (k : Int) (bs : List Box)
    (h : keyStep st k = Sum.inr ("quit", bs)) : bs = [] := by
  unfold keyStep at h
  split_ifs at h <;> simp_all

theorem runSession_quit_empty (es : List Ev) :
    ∀ (st : DrawerState) (bs : List Box),
      runSession st es = some ("quit", bs) → bs = [] := by
  induction es with
  | nil => intro st bs h; simp [runSession] at h
  | cons e es ih =>
    intro st bs h
    cases e with
    | down x y => exact ih _ _ h
    | up x y => exact ih _ _ h
    | key k =>
      rw [runSession] at h
      rcases hks : keyStep st k with st2 | out
      · rw [hks] at h
        exact ih _ _ h
      · rw [hks] at h
        have hout : out = ("quit", bs) := by
          simpa using h
        rw [hout] at hks
        exact keyStep_inr_quit st k bs hks

theorem annotateRun_halt (page_count : Int) (script : List (String × List Box)) :
    annotateRun page_count page_count script = ([], []) := by
  cases script with
  | nil => simp [annotateRun]
  | cons p rest =>
    cases p
    simp [annotateRun]

/-- C7: the cancel key terminates the session with outcome "quit" and an
empty box snapshot, and the orchestrator on a "quit" outcome breaks out
of its loop immediately without invoking the Crop Exporter for that page:
the run records no export and no further visit. -/
theorem C7_quit_discards_page :
    (∀ (st : DrawerState) (es : List Ev) (bs : List Box),
        runSession st es = some ("quit", bs) → bs = []) ∧
    (∀ (page_count idx : Int) (bs : List Box) (rest : List (String × List Box)),
        0 ≤ idx → idx < page_count →
        annotateRun page_count idx (("quit", bs) :: rest) = ([], [idx])) := by
  constructor
  · intro st es bs h
    exact runSession_quit_empty es st bs h
  · intro pc idx bs rest h0 h1
    simp [annotateRun, h0, h1]

/-- Witness for C7: a session that draws one box and presses Esc, and a
3-page orchestrator receiving "quit" on page 0. -/
theorem C7_quit_discards_page_witness :
    (([] : List Box) = []) ∧
    annotateRun 3 0 (("quit", [((⟨0, 0⟩ : CvPoint), (⟨5, 5⟩ : CvPoint))]) :: []) = ([], [0]) :=
  ⟨C7_quit_discards_page.1 ⟨[], none⟩ [Ev.down 1 2, Ev.up 3 4, Ev.key 27] []
      (by decide),
   C7_quit_discards_page.2 3 0 [((⟨0, 0⟩ : CvPoint), (⟨5, 5⟩ : CvPoint))] [] (by decide) (by decide)⟩

theorem annotateRun_visits_in_range (page_count : Int) (script : List (String × List Box)) :
    ∀ (idx i : Int), i ∈ (annotateRun page_count idx script).2 →
      0 ≤ i ∧ i < page_count := by
  induction script with
  | nil =>
    intro idx i hi
    rw [annotateRun] at hi
    split_ifs at hi with hr
    · simp at hi
      omega
    · simp at hi
  | cons p rest ih =>
    intro idx i hi
    obtain ⟨a, bs⟩ := p
    by_cases hr : 0 ≤ idx ∧ idx < page_count
    · by_cases hq : a = "quit"
      · rw [annotateRun, if_pos hr, if_pos hq] at hi
        simp at hi
        omega
      · rw [annotateRun, if_pos hr, if_neg hq] at hi
        dsimp only at hi
        rcases List.mem_cons.mp hi with hi | hi
        · omega
        · exact ih _ i hi
    · rw [annotateRun, if_neg hr] at hi
      simp at hi

/-- C8: every page index the orchestrator renders lies in
`[0, pageCount)`; outcome "back" at index 0 leaves the index unchanged
but still exports the non-empty snapshot of that visit; outcome "next"
on the last page moves the index to pageCount, which terminates the
loop without rendering an out-of-range page. -/
theorem C8_index_invariant :
    (∀ (page_count idx i : Int) (script : List (String × List Box)),
        i ∈ (annotateRun page_count idx script).2 → 0 ≤ i ∧ i < page_count) ∧
    (∀ (page_count : Int) (bs : List Box) (rest : List (String × List Box)),
        0 < page_count → bs ≠ [] →
        annotateRun page_count 0 (("back", bs) :: rest) =
          ((0, bs) :: (annotateRun page_count 0 rest).1,
           0 :: (annotateRun page_count 0 rest).2)) ∧
    (∀ (page_count : Int) (bs : List Box) (rest : List (String × List Box)),
        0 < page_count →
        annotateRun page_count (page_count - 1) (("next", bs) :: rest) =
          ((if bs ≠ [] then [(page_count - 1, bs)] else []), [page_count - 1])) := by
  refine ⟨?_, ?_, ?_⟩
  · intro pc idx i script hi
    exact annotateRun_visits_in_range pc script idx i hi
  · intro pc bs rest hpc hbs
    rw [annotateRun]
    rw [if_pos (show (0 : Int) ≤ 0 ∧ (0 : Int) < pc by omega)]
    rw [if_neg (show ¬("back" : String) = "quit" by decide)]
    dsimp only
    rw [if_pos hbs]
    rw [if_neg (show ¬(("back" : String) = "back" ∧ (0 : Int) < 0) by simp)]
    rw [if_neg (show ¬("back" : String) = "next" by decide)]
    simp
  · intro pc bs rest hpc
    rw [annotateRun]
    rw [if_pos (show (0 : Int) ≤ pc - 1 ∧ pc - 1 < pc by omega)]
    rw [if_neg (show ¬("next" : String) = "quit" by decide)]
    dsimp only
    rw [if_neg (show ¬(("next" : String) = "back" ∧ (0 : Int) < pc - 1) by
          rintro ⟨hab, -⟩; exact absurd hab (by decide))]
    rw [if_pos (show ("next" : String) = "next" from rfl)]
    have hid : pc - 1 + 1 = pc := by omega
    rw [hid, annotateRun_halt]
    simp

/-- Witness for C8 at a 3-page document. -/
theorem C8_index_invariant_witness :
    (0 ≤ (0 : Int) ∧ (0 : Int) < 3) ∧
    (annotateRun 3 0 (("back", [((⟨0, 0⟩ : CvPoint), (⟨5, 5⟩ : CvPoint))]) :: []) =
      ((0, [((⟨0, 0⟩ : CvPoint), (⟨5, 5⟩ : CvPoint))]) :: (annotateRun 3 0 []).1,
       0 :: (annotateRun 3 0 []).2)) ∧
    (annotateRun 3 2 (("next", [((⟨0, 0⟩ : CvPoint), (⟨5, 5⟩ : CvPoint))]) :: []) =
      ((if [((⟨0, 0⟩ : CvPoint), (⟨5, 5⟩ : CvPoint))] ≠ [] then
          [((2 : Int), [((⟨0, 0⟩ : CvPoint), (⟨5, 5⟩ : CvPoint))])] else []), [(2 : Int)])) :=
  ⟨C8_index_invariant.1 3 0 0 [("next", [])] (by decide),
   C8_index_invariant.2.1 3 [((⟨0, 0⟩ : CvPoint), (⟨5, 5⟩ : CvPoint))] [] (by decide) (by decide),
   by
     have h := C8_index_invariant.2.2 3 [((⟨0, 0⟩ : CvPoint), (⟨5, 5⟩ : CvPoint))] [] (by decide)
     simpa using h⟩

theorem ocrPassAux_all_skipped (stop : Nat → Bool) (writeOk : DirEntry → Bool)
    (entries : List DirEntry) :
    ∀ (ex : List DirEntry) (c t : Nat) (wf : Bool),
      (∀ e ∈ entries, e.ext = ".png" → texOf e ∈ ex) →
      (ocrPassAux stop writeOk entries ex c t wf).writes = [] ∧
      (ocrPassAux stop writeOk entries ex c t wf).logs = [] ∧
      (ocrPassAux stop writeOk entries ex c t wf).existing = ex ∧
      (ocrPassAux stop writeOk entries ex c t wf).counter = c ∧
      (ocrPassAux stop writeOk entries ex c t wf).work_found = wf := by
  induction entries with
  | nil => intro ex c t wf hall; simp [ocrPassAux]
  | cons e es ih =>
    intro ex c t wf hall
    by_cases hs : stop t = true
    · rw [ocrPassAux, if_pos hs]
      exact ⟨rfl, rfl, rfl, rfl, rfl⟩
    · by_cases hpng : e.ext = ".png"
      · have hmem : texOf e ∈ ex := hall e (List.mem_cons_self e es) hpng
        rw [ocrPassAux, if_neg hs, if_neg (by simp [hpng]), if_pos hmem]
        exact ih ex c (t + 1) wf (fun x hx => hall x (List.mem_cons_of_mem e hx))
      · rw [ocrPassAux, if_neg hs, if_pos (by simp [hpng])]
        exact ih ex c (t + 1) wf (fun x hx => hall x (List.mem_cons_of_mem e hx))

/-- C2: the worker treats a `.png` entry as work only if no file with the
same stem and extension `.tex` exists; a pass over a directory in which
every Crop File already has its Result File performs no writes, emits no
log, advances no counter and finds no work. -/
theorem C2_idempotent_rediscovery (stop : Nat → Bool) (writeOk : DirEntry → Bool)
    (entries ex : List DirEntry) (c t : Nat)
    (hall : ∀ e ∈ entries, e.ext = ".png" → texOf e ∈ ex) :
    (ocrPass stop writeOk entries ex c t).writes = [] ∧
    (ocrPass stop writeOk entries ex c t).logs = [] ∧
    (ocrPass stop writeOk entries ex c t).existing = ex ∧
    (ocrPass stop writeOk entries ex c t).counter = c ∧
    (ocrPass stop writeOk entries ex c t).work_found = false :=
  ocrPassAux_all_skipped stop writeOk entries ex c t false hall

/-- Witness for C2: a directory whose only Crop File `a.png` already has
its `a.tex`, next to a foreign `b.txt` entry. -/
theorem C2_idempotent_rediscovery_witness :
    (ocrPass (fun _ => false) (fun _ => true)
        [⟨"a", ".png"⟩, ⟨"b", ".txt"⟩] [⟨"a", ".tex"⟩] 0 0).writes = [] ∧
    (ocrPass (fun _ => false) (fun _ => true)
        [⟨"a", ".png"⟩, ⟨"b", ".txt"⟩] [⟨"a", ".tex"⟩] 0 0).logs = [] ∧
    (ocrPass (fun _ => false) (fun _ => true)
        [⟨"a", ".png"⟩, ⟨"b", ".txt"⟩] [⟨"a", ".tex"⟩] 0 0).existing = [⟨"a", ".tex"⟩] ∧
    (ocrPass (fun _ => false) (fun _ => true)
        [⟨"a", ".png"⟩, ⟨"b", ".txt"⟩] [⟨"a", ".tex"⟩] 0 0).counter = 0 ∧
    (ocrPass (fun _ => false) (fun _ => true)
        [⟨"a", ".png"⟩, ⟨"b", ".txt"⟩] [⟨"a", ".tex"⟩] 0 0).work_found = false :=
  C2_idempotent_rediscovery (fun _ => false) (fun _ => true)
    [⟨"a", ".png"⟩, ⟨"b", ".txt"⟩] [⟨"a", ".tex"⟩] 0 0 (by decide)

theorem itemStep_write_shape (stop : Nat → Bool) (writeOk : DirEntry → Bool)
    (e : DirEntry) (c t : Nat) :
    (itemStep stop writeOk e c t).1 = none ∨
    (itemStep stop writeOk e c t).1 = some (texOf e, next_latex_snippet c ++ "\n") := by
  unfold itemStep
  dsimp only
  by_cases hs : stop (simWait stop 30 t) = true <;> simp [hs]

theorem ocrPassAux_writes_from_png (stop : Nat → Bool) (writeOk : DirEntry → Bool)
    (entries : List DirEntry) :
    ∀ (ex : List DirEntry) (c t : Nat) (wf : Bool) (p : DirEntry × String),
      p ∈ (ocrPassAux stop writeOk entries ex c t wf).writes →
      ∃ e, e ∈ entries ∧ e.ext = ".png" ∧ p.1 = texOf e := by
  induction entries with
  | nil => intro ex c t wf p hp; simp [ocrPassAux] at hp
  | cons e es ih =>
    intro ex c t wf p hp
    by_cases hs : stop t = true
    · rw [ocrPassAux, if_pos hs] at hp
      simp at hp
    · by_cases hpng : e.ext = ".png"
      · by_cases hmem : texOf e ∈ ex
        · rw [ocrPassAux, if_neg hs, if_neg (by simp [hpng]), if_pos hmem] at hp
          obtain ⟨x, hx, hxe, hxt⟩ := ih ex c (t + 1) wf p hp
          exact ⟨x, List.mem_cons_of_mem e hx, hxe, hxt⟩
        · rw [ocrPassAux, if_neg hs, if_neg (by simp [hpng]), if_neg hmem] at hp
          rcases hw : itemStep stop writeOk e c (t + 1) with ⟨w, t2, ab⟩
          rw [hw] at hp
          dsimp only at hp
          by_cases hab : ab = true
          · rw [if_pos hab] at hp
            simp at hp
          · rw [if_neg hab] at hp
            dsimp only at hp
            rw [List.mem_append] at hp
            rcases hp with hp | hp
            · have hsh := itemStep_write_shape stop writeOk e c (t + 1)
              rw [hw] at hsh
              dsimp only at hsh
              rcases hsh with hn | hsome
              · rw [hn] at hp
                simp at hp
              · rw [hsome] at hp
                simp at hp
                exact ⟨e, List.mem_cons_self e es, hpng, by rw [hp]⟩
            · obtain ⟨x, hx, hxe, hxt⟩ := ih _ (c + 1) t2 true p hp
              exact ⟨x, List.mem_cons_of_mem e hx, hxe, hxt⟩
      · rw [ocrPassAux, if_neg hs, if_pos (by simp [hpng])] at hp
        obtain ⟨x, hx, hxe, hxt⟩ := ih ex c (t + 1) wf p hp
        exact ⟨x, List.mem_cons_of_mem e hx, hxe, hxt⟩

/-- C10: the worker recognizes an entry as a Crop File only if its
extension is exactly ".png" (case-sensitive): every write of a pass is
the `.tex` derivative of a `.png` entry, and a pass over entries none of
which has extension ".png" (for instance ".PNG") writes nothing, logs
nothing and finds no work. -/
theorem C10_png_case_sensitive :
    (∀ (stop : Nat → Bool) (writeOk : DirEntry → Bool) (entries ex : List DirEntry)
        (c t : Nat) (p : DirEntry × String),
        p ∈ (ocrPass stop writeOk entries ex c t).writes →
        ∃ e, e ∈ entries ∧ e.ext = ".png" ∧ p.1 = texOf e) ∧
    (∀ (stop : Nat → Bool) (writeOk : DirEntry → Bool) (entries ex : List DirEntry)
        (c t : Nat),
        (∀ e ∈ entries, e.ext ≠ ".png") →
        (ocrPass stop writeOk entries ex c t).writes = [] ∧
        (ocrPass stop writeOk entries ex c t).logs = [] ∧
        (ocrPass stop writeOk entries ex c t).counter = c ∧
        (ocrPass stop writeOk entries ex c t).work_found = false) := by
  constructor
  · intro stop writeOk entries ex c t p hp
    exact ocrPassAux_writes_from_png stop writeOk entries ex c t false p hp
  · intro stop writeOk entries ex c t hnone
    have h := ocrPassAux_all_skipped stop writeOk entries ex c t false
      (fun e he hpng => absurd hpng (hnone e he))
    exact ⟨h.1, h.2.1, h.2.2.2.1, h.2.2.2.2⟩

/-- Witness for C10: a fresh `a.png` is processed into `a.tex`, while a
directory holding only `a.PNG` is ignored entirely. -/
theorem C10_png_case_sensitive_witness :
    (∃ e, e ∈ [DirEntry.mk "a" ".png"] ∧ e.ext = ".png" ∧
      (DirEntry.mk "a" ".tex", next_latex_snippet 0 ++ "\n").1 = texOf e) ∧
    (ocrPass (fun _ => false) (fun _ => true) [⟨"a", ".PNG"⟩] [] 0 0).writes = [] ∧
    (ocrPass (fun _ => false) (fun _ => true) [⟨"a", ".PNG"⟩] [] 0 0).logs = [] ∧
    (ocrPass (fun _ => false) (fun _ => true) [⟨"a", ".PNG"⟩] [] 0 0).counter = 0 ∧
    (ocrPass (fun _ => false) (fun _ => true) [⟨"a", ".PNG"⟩] [] 0 0).work_found = false :=
  ⟨C10_png_case_sensitive.1 (fun _ => false) (fun _ => true) [⟨"a", ".png"⟩] [] 0 0
      (DirEntry.mk "a" ".tex", next_latex_snippet 0 ++ "\n") (by decide),
   C10_png_case_sensitive.2 (fun _ => false) (fun _ => true) [⟨"a", ".PNG"⟩] [] 0 0 (by decide)⟩

theorem itemStep_snd (stop : Nat → Bool) (w : DirEntry → Bool) (e : DirEntry) (c t : Nat) :
    (itemStep stop w e c t).2 = (simWait stop 30 t + 1, stop (simWait stop 30 t)) := by
  unfold itemStep
  dsimp only
  by_cases hs : stop (simWait stop 30 t) = true <;> simp [hs]

theorem pngStems_cons_png (e : DirEntry) (es : List DirEntry) (h : e.ext = ".png") :
    pngStems (e :: es) = e.stem :: pngStems es := by
  simp [pngStems, List.filter_cons, h]

theorem pngStems_cons_not (e : DirEntry) (es : List DirEntry) (h : ¬ e.ext = ".png") :
    pngStems (e :: es) = pngStems es := by
  simp [pngStems, List.filter_cons, h]

theorem mem_pngStems (x : DirEntry) (es : List DirEntry) (hx : x ∈ es) (hp : x.ext = ".png") :
    x.stem ∈ pngStems es := by
  unfold pngStems
  exact List.mem_map_of_mem DirEntry.stem (List.mem_filter.mpr ⟨hx, by simp [hp]⟩)

theorem ocrPassAux_writeOk_indep (stop : Nat → Bool) (w1 w2 : DirEntry → Bool)
    (entries : List DirEntry) :
    ∀ (ex1 ex2 : List DirEntry) (c t : Nat) (wf : Bool),
      (pngStems entries).Nodup →
      (∀ e ∈ entries, e.ext = ".png" → (texOf e ∈ ex1 ↔ texOf e ∈ ex2)) →
      (ocrPassAux stop w1 entries ex1 c t wf).logs =
        (ocrPassAux stop w2 entries ex2 c t wf).logs ∧
      (ocrPassAux stop w1 entries ex1 c t wf).counter =
        (ocrPassAux stop w2 entries ex2 c t wf).counter ∧
      (ocrPassAux stop w1 entries ex1 c t wf).time =
        (ocrPassAux stop w2 entries ex2 c t wf).time ∧
      (ocrPassAux stop w1 entries ex1 c t wf).work_found =
        (ocrPassAux stop w2 entries ex2 c t wf).work_found ∧
      (ocrPassAux stop w1 entries ex1 c t wf).aborted =
        (ocrPassAux stop w2 entries ex2 c t wf).aborted := by
  induction entries with
  | nil => intro ex1 ex2 c t wf _ _; exact ⟨rfl, rfl, rfl, rfl, rfl⟩
  | cons e es ih =>
    intro ex1 ex2 c t wf hnd hiff
    by_cases hs : stop t = true
    · simp only [ocrPassAux]
      rw [if_pos hs, if_pos hs]
      exact ⟨rfl, rfl, rfl, rfl, rfl⟩
    · by_cases hpng : e.ext = ".png"
      · have hiffe := hiff e (List.mem_cons_self e es) hpng
        rw [pngStems_cons_png e es hpng] at hnd
        have hstem_not := (List.nodup_cons.mp hnd).1
        have hnd2 := (List.nodup_cons.mp hnd).2
        have htexne : ∀ x ∈ es, x.ext = ".png" → texOf x ≠ texOf e := by
          intro x hx hxp hcontra
          apply hstem_not
          have hxs : x.stem = e.stem := by
            simpa [texOf] using congrArg DirEntry.stem hcontra
          exact hxs ▸ mem_pngStems x es hx hxp
        by_cases hm1 : texOf e ∈ ex1
        · have hm2 : texOf e ∈ ex2 := hiffe.mp hm1
          simp only [ocrPassAux]
          rw [if_neg hs, if_neg hs, if_neg (show ¬ e.ext ≠ ".png" by simp [hpng]),
              if_neg (show ¬ e.ext ≠ ".png" by simp [hpng]), if_pos hm1, if_pos hm2]
          exact ih ex1 ex2 c (t + 1) wf hnd2
            (fun x hx hxp => hiff x (List.mem_cons_of_mem e hx) hxp)
        · have hm2 : texOf e ∉ ex2 := fun hm => hm1 (hiffe.mpr hm)
          simp only [ocrPassAux]
          rw [if_neg hs, if_neg hs, if_neg (show ¬ e.ext ≠ ".png" by simp [hpng]),
              if_neg (show ¬ e.ext ≠ ".png" by simp [hpng]), if_neg hm1, if_neg hm2]
          rcases h1 : itemStep stop w1 e c (t + 1) with ⟨wa, t2a, aba⟩
          rcases h2 : itemStep stop w2 e c (t + 1) with ⟨wb, t2b, abb⟩
          have ha := itemStep_snd stop w1 e c (t + 1)
          have hb := itemStep_snd stop w2 e c (t + 1)
          rw [h1] at ha
          rw [h2] at hb
          have hpair : (t2a, aba) = (t2b, abb) := by
            have := ha.trans hb.symm
            simpa using this
          have ht : t2a = t2b := congrArg Prod.fst hpair
          have hab : aba = abb := congrArg Prod.snd hpair
          dsimp only
          by_cases haba : aba = true
          · rw [if_pos haba, if_pos (hab ▸ haba)]
            exact ⟨rfl, rfl, by rw [ht], rfl, rfl⟩
          · rw [if_neg haba, if_neg (show ¬ abb = true from hab ▸ haba)]
            dsimp only
            rw [← ht]
            have hsa := itemStep_write_shape stop w1 e c (t + 1)
            have hsb := itemStep_write_shape stop w2 e c (t + 1)
            rw [h1] at hsa
            rw [h2] at hsb
            dsimp only at hsa hsb
            have hrest : ∀ x ∈ es, x.ext = ".png" → (texOf x ∈ ex1 ↔ texOf x ∈ ex2) :=
              fun x hx hxp => hiff x (List.mem_cons_of_mem e hx) hxp
            rcases hsa with hna | hso1 <;> rcases hsb with hnb | hso2
            · subst hna; subst hnb
              dsimp only
              obtain ⟨hl, hc, htm, hwf, habt⟩ := ih ex1 ex2 (c + 1) t2a true hnd2 hrest
              exact ⟨by rw [hl], by rw [hc], by rw [htm], by rw [hwf], by rw [habt]⟩
            · subst hna; subst hso2
              dsimp only
              obtain ⟨hl, hc, htm, hwf, habt⟩ := ih ex1 (texOf e :: ex2) (c + 1) t2a true hnd2
                (by
                  intro x hx hxp
                  rw [hrest x hx hxp]
                  simp [List.mem_cons, htexne x hx hxp])
              exact ⟨by rw [hl], by rw [hc], by rw [htm], by rw [hwf], by rw [habt]⟩
            · subst hso1; subst hnb
              dsimp only
              obtain ⟨hl, hc, htm, hwf, habt⟩ := ih (texOf e :: ex1) ex2 (c + 1) t2a true hnd2
                (by
                  intro x hx hxp
                  rw [← hrest x hx hxp]
                  simp [List.mem_cons, htexne x hx hxp])
              exact ⟨by rw [hl], by rw [hc], by rw [htm], by rw [hwf], by rw [habt]⟩
            · subst hso1; subst hso2
              dsimp only
              obtain ⟨hl, hc, htm, hwf, habt⟩ := ih (texOf e :: ex1) (texOf e :: ex2) (c + 1) t2a
                true hnd2
                (by
                  intro x hx hxp
                  simp [List.mem_cons, htexne x hx hxp, hrest x hx hxp])
              exact ⟨by rw [hl], by rw [hc], by rw [htm], by rw [hwf], by rw [habt]⟩
      · rw [pngStems_cons_not e es hpng] at hnd
        simp only [ocrPassAux]
        rw [if_neg hs, if_neg hs, if_pos (show e.ext ≠ ".png" from hpng),
            if_pos (show e.ext ≠ ".png" from hpng)]
        exact ih ex1 ex2 c (t + 1) wf hnd
          (fun x hx hxp => hiff x (List.mem_cons_of_mem e hx) hxp)

/-- C4 (amended): a failure to write one Result File is non-fatal and
invisible: over any directory listing with distinct `.png` stems, the
pass's log stream, snippet counter, clock, work flag and abort flag are
identical whether writes fail or succeed — the worker continues with the
remaining items exactly as on success, and no failure is surfaced in the
logs. -/
theorem C4_write_failure_nonfatal (stop : Nat → Bool) (writeOk : DirEntry → Bool)
    (entries ex : List DirEntry) (c t : Nat) (hnd : (pngStems entries).Nodup) :
    (ocrPass stop writeOk entries ex c t).logs =
      (ocrPass stop (fun _ => true) entries ex c t).logs ∧
    (ocrPass stop writeOk entries ex c t).counter =
      (ocrPass stop (fun _ => true) entries ex c t).counter ∧
    (ocrPass stop writeOk entries ex c t).time =
      (ocrPass stop (fun _ => true) entries ex c t).time ∧
    (ocrPass stop writeOk entries ex c t).work_found =
      (ocrPass stop (fun _ => true) entries ex c t).work_found ∧
    (ocrPass stop writeOk entries ex c t).aborted =
      (ocrPass stop (fun _ => true) entries ex c t).aborted :=
  ocrPassAux_writeOk_indep stop writeOk (fun _ => true) entries ex ex c t false hnd
    (fun _ _ _ => Iff.rfl)

/-- Counterexample to C4 as stated: a pass in which every Result File
write fails produces no file, yet its log stream is exactly the success
log stream — including the unconditional "wrote" success messages — and
both items are still consumed; the failure is not surfaced anywhere. -/
theorem C4_failure_silent_cx :
    (ocrPass (fun _ => false) (fun _ => false)
        [⟨"a", ".png"⟩, ⟨"b", ".png"⟩] [] 0 0).writes = [] ∧
    (ocrPass (fun _ => false) (fun _ => false)
        [⟨"a", ".png"⟩, ⟨"b", ".png"⟩] [] 0 0).logs =
      (ocrPass (fun _ => false) (fun _ => true)
        [⟨"a", ".png"⟩, ⟨"b", ".png"⟩] [] 0 0).logs ∧
    (ocrPass (fun _ => false) (fun _ => false)
        [⟨"a", ".png"⟩, ⟨"b", ".png"⟩] [] 0 0).logs =
      ["[OCR] Processing a.png -> '" ++ next_latex_snippet 0 ++ "'",
       "[OCR]   -> wrote a.tex",
       "[OCR] Processing b.png -> '" ++ next_latex_snippet 1 ++ "'",
       "[OCR]   -> wrote b.tex"] ∧
    (ocrPass (fun _ => false) (fun _ => false)
        [⟨"a", ".png"⟩, ⟨"b", ".png"⟩] [] 0 0).counter = 2 :=
  ⟨rfl, rfl, rfl, rfl⟩

/-- Witness for the amended C4 at a concrete failing directory. -/
theorem C4_write_failure_nonfatal_witness :
    (ocrPass (fun _ => false) (fun _ => false) [⟨"c", ".png"⟩] [] 0 0).logs =
      (ocrPass (fun _ => false) (fun _ => true) [⟨"c", ".png"⟩] [] 0 0).logs ∧
    (ocrPass (fun _ => false) (fun _ => false) [⟨"c", ".png"⟩] [] 0 0).counter =
      (ocrPass (fun _ => false) (fun _ => true) [⟨"c", ".png"⟩] [] 0 0).counter ∧
    (ocrPass (fun _ => false) (fun _ => false) [⟨"c", ".png"⟩] [] 0 0).time =
      (ocrPass (fun _ => false) (fun _ => true) [⟨"c", ".png"⟩] [] 0 0).time ∧
    (ocrPass (fun _ => false) (fun _ => false) [⟨"c", ".png"⟩] [] 0 0).work_found =
      (ocrPass (fun _ => false) (fun _ => true) [⟨"c", ".png"⟩] [] 0 0).work_found ∧
    (ocrPass (fun _ => false) (fun _ => false) [⟨"c", ".png"⟩] [] 0 0).aborted =
      (ocrPass (fun _ => false) (fun _ => true) [⟨"c", ".png"⟩] [] 0 0).aborted :=
  C4_write_failure_nonfatal (fun _ => false) (fun _ => false) [⟨"c", ".png"⟩] [] 0 0 (by decide)

theorem simWait_stop_of_observed (stop : Nat → Bool) (hm : StopMono stop) :
    ∀ (n t : Nat), (∃ j, j < n ∧ stop (t + j) = true) →
      stop (simWait stop n t) = true := by
  intro n
  induction n with
  | zero =>
    intro t h
    obtain ⟨j, hj, _⟩ := h
    omega
  | succ n ih =>
    intro t h
    by_cases h0 : stop t = true
    · rw [simWait, if_pos h0]
      exact hm t (t + 1) (by omega) h0
    · rw [simWait, if_neg h0]
      obtain ⟨j, hj, hsj⟩ := h
      rcases j with _ | j
      · exact absurd (by simpa using hsj) h0
      · apply ih (t + 1)
        refine ⟨j, by omega, ?_⟩
        have harith : t + 1 + j = t + (j + 1) := by omega
        rw [harith]
        exact hsj

theorem ocrPassAux_aborted_stop (stop : Nat → Bool) (writeOk : DirEntry → Bool)
    (entries : List DirEntry) :
    ∀ (ex : List DirEntry) (c t : Nat) (wf : Bool),
      (ocrPassAux stop writeOk entries ex c t wf).aborted = true →
      ∃ j, j < (ocrPassAux stop writeOk entries ex c t wf).time ∧ stop j = true := by
  induction entries with
  | nil => intro ex c t wf hab; simp [ocrPassAux] at hab
  | cons e es ih =>
    intro ex c t wf hab
    by_cases hs : stop t = true
    · rw [ocrPassAux, if_pos hs] at hab ⊢
      exact ⟨t, Nat.lt_succ_self t, hs⟩
    · by_cases hpng : e.ext = ".png"
      · by_cases hmem : texOf e ∈ ex
        · rw [ocrPassAux, if_neg hs, if_neg (show ¬ e.ext ≠ ".png" by simp [hpng]),
              if_pos hmem] at hab ⊢
          exact ih ex c (t + 1) wf hab
        · rw [ocrPassAux, if_neg hs, if_neg (show ¬ e.ext ≠ ".png" by simp [hpng]),
              if_neg hmem] at hab ⊢
          dsimp only at hab ⊢
          have hsnd := itemStep_snd stop writeOk e c (t + 1)
          have ht2 : (itemStep stop writeOk e c (t + 1)).2.1 = simWait stop 30 (t + 1) + 1 := by
            rw [hsnd]
          have hav : (itemStep stop writeOk e c (t + 1)).2.2 = stop (simWait stop 30 (t + 1)) := by
            rw [hsnd]
          by_cases habv : (itemStep stop writeOk e c (t + 1)).2.2 = true
          · rw [if_pos habv]
            dsimp only
            rw [ht2]
            refine ⟨simWait stop 30 (t + 1), Nat.lt_succ_self _, ?_⟩
            rw [hav] at habv
            exact habv
          · rw [if_neg habv] at hab ⊢
            dsimp only at hab ⊢
            exact ih _ (c + 1) _ true hab
      · rw [ocrPassAux, if_neg hs, if_pos (show e.ext ≠ ".png" from hpng)] at hab ⊢
        exact ih ex c (t + 1) wf hab

theorem workerRun_exits_of_stop (stop : Nat → Bool) (writeOk : DirEntry → Bool)
    (entriesF : Nat → List DirEntry) (folderExists : Nat → Bool)
    (t : Nat) (hs : stop t = true) (fuel pn : Nat) (ex : List DirEntry) (c : Nat) :
    workerRun stop writeOk entriesF folderExists (fuel + 1) pn ex c t = ([], true) := by
  rw [workerRun, if_pos hs]

/-- C3: if the Stop Signal is observed during an item's simulated
processing wait (a monotone signal true at some tick of the 30-step
wait), the item write step produces no Result File and reports the abort;
if the wait completes unaborted (the post-wait load reads false), the
Result File is written exactly once, containing the derived label; and
after any pass that aborted, the worker's outer loop performs no further
write and exits entirely. -/
theorem C3_stop_mid_item :
    (∀ (stop : Nat → Bool) (writeOk : DirEntry → Bool) (e : DirEntry) (c t : Nat),
        StopMono stop → (∃ j, j < 30 ∧ stop (t + j) = true) →
        (itemStep stop writeOk e c t).1 = none ∧ (itemStep stop writeOk e c t).2.2 = true) ∧
    (∀ (stop : Nat → Bool) (e : DirEntry) (c t : Nat),
        stop (simWait stop 30 t) = false →
        itemStep stop (fun _ => true) e c t =
          (some (texOf e, next_latex_snippet c ++ "\n"), simWait stop 30 t + 1, false)) ∧
    (∀ (stop : Nat → Bool) (writeOk : DirEntry → Bool) (entries ex : List DirEntry)
        (c t : Nat) (entriesF : Nat → List DirEntry) (folderExists : Nat → Bool)
        (fuel pn : Nat) (ex2 : List DirEntry) (c2 : Nat),
        StopMono stop → (ocrPass stop writeOk entries ex c t).aborted = true →
        workerRun stop writeOk entriesF folderExists (fuel + 1) pn ex2 c2
          ((ocrPass stop writeOk entries ex c t).time) = ([], true)) := by
  refine ⟨?_, ?_, ?_⟩
  · intro stop writeOk e c t hm hob
    have h1 : stop (simWait stop 30 t) = true := simWait_stop_of_observed stop hm 30 t hob
    unfold itemStep
    dsimp only
    rw [if_pos h1]
    exact ⟨rfl, rfl⟩
  · intro stop e c t hdone
    unfold itemStep
    dsimp only
    rw [if_neg (show ¬ stop (simWait stop 30 t) = true by simp [hdone])]
    simp
  · intro stop writeOk entries ex c t entriesF folderExists fuel pn ex2 c2 hm hab
    obtain ⟨j, hj, hsj⟩ := ocrPassAux_aborted_stop stop writeOk entries ex c t false hab
    have hle : j ≤ (ocrPass stop writeOk entries ex c t).time := by
      show j ≤ (ocrPassAux stop writeOk entries ex c t false).time
      omega
    have hst : stop ((ocrPass stop writeOk entries ex c t).time) = true :=
      hm j _ hle hsj
    exact workerRun_exits_of_stop stop writeOk entriesF folderExists _ hst fuel pn ex2 c2

/-- Witness for C3: an always-set signal aborts the item and the worker,
a never-set signal lets the item write its single labelled Result File. -/
theorem C3_stop_mid_item_witness :
    ((itemStep (fun _ => true) (fun _ => true) ⟨"a", ".png"⟩ 0 0).1 = none ∧
     (itemStep (fun _ => true) (fun _ => true) ⟨"a", ".png"⟩ 0 0).2.2 = true) ∧
    (itemStep (fun _ => false) (fun _ => true) ⟨"a", ".png"⟩ 0 0 =
      (some (texOf ⟨"a", ".png"⟩, next_latex_snippet 0 ++ "\n"),
       simWait (fun _ => false) 30 0 + 1, false)) ∧
    (workerRun (fun _ => true) (fun _ => true) (fun _ => []) (fun _ => true) 1 0 [] 0
      ((ocrPass (fun _ => true) (fun _ => true) [⟨"a", ".png"⟩] [] 0 0).time) = ([], true)) :=
  ⟨C3_stop_mid_item.1 (fun _ => true) (fun _ => true) ⟨"a", ".png"⟩ 0 0
      (fun _ _ _ h => h) ⟨0, by decide, rfl⟩,
   C3_stop_mid_item.2.1 (fun _ => false) ⟨"a", ".png"⟩ 0 0 (by decide),
   C3_stop_mid_item.2.2 (fun _ => true) (fun _ => true) [⟨"a", ".png"⟩] [] 0 0
      (fun _ => []) (fun _ => true) 0 0 [] 0 (fun _ _ _ h => h) (by decide)⟩

end Extractor
